import Mathlib

/-!
A shallow embedding of the data-aggregation core of the github-release-dashboard
repository: the TTL cache, pagination loops, review-status derivation, issue-type
classification, release-phase mapping of `src/services/githubService.js` and the
repository context provider, together with theorems settling the specification's
claims about them.
-/

namespace ReleaseDashboard

/-- One cache entry, as stored by `setCacheItem`: the cached data together with
its absolute expiry time in milliseconds (`{ data, expiry: Date.now() + expiryMs }`). -/
structure CacheEntry (α : Type) where
  data : α
  expiry : Nat
  deriving DecidableEq, Repr

/-- The service's cache: a JS `Map` from string keys to entries, embedded as an
association list with unique keys maintained by the operations. -/
abbrev Cache (α : Type) := List (String × CacheEntry α)

/-- Lookup in the JS `Map` (`this.cache.get(key)` combined with `this.cache.has(key)`). -/
def cacheFind {α : Type} : Cache α → String → Option (CacheEntry α)
  | [], _ => none
  | (k', e) :: rest, k => if k' = k then some e else cacheFind rest k

/-- `this.cache.set(key, entry)`: replaces the entry under `key` if present,
otherwise appends a new one. -/
def cacheSet {α : Type} : Cache α → String → CacheEntry α → Cache α
  | [], k, e => [(k, e)]
  | (k', e') :: rest, k, e =>
    if k' = k then (k, e) :: rest else (k', e') :: cacheSet rest k e

/-- `this.cache.delete(key)`: removes the entry stored under `key`. -/
def cacheDelete {α : Type} : Cache α → String → Cache α
  | [], _ => []
  | (k', e') :: rest, k =>
    if k' = k then cacheDelete rest k else (k', e') :: cacheDelete rest k

/-- `getCachedItem(key)` from githubService.js lines 17-28: returns `null` when the
key is absent; when present but `Date.now() > expiry`, deletes the entry and
returns `null`; otherwise returns the data.  The result pairs the returned value
with the cache state after the call (`Date.now()` passed in as `now`). -/
def getCachedItem {α : Type} (c : Cache α) (now : Nat) (k : String) : Option α × Cache α :=
  match cacheFind c k with
  | none => (none, c)
  | some e => if e.expiry < now then (none, cacheDelete c k) else (some e.data, c)

/-- `setCacheItem(key, data, expiryMs)` from githubService.js lines 36-41: stores
`{ data, expiry: Date.now() + expiryMs }` under `key` unconditionally. -/
def setCacheItem {α : Type} (c : Cache α) (now : Nat) (k : String) (d : α) (ttl : Nat) : Cache α :=
  cacheSet c k ⟨d, now + ttl⟩

/-- JS `String.prototype.startsWith`, on the underlying character lists. -/
def strStartsWith (s p : String) : Bool :=
  p.data.isPrefixOf s.data

/-- `clearRepoCache(owner, repo)` from githubService.js lines 48-57: deletes every
key that starts with `` `${owner}/${repo}:` ``. -/
def clearRepoCache {α : Type} : Cache α → String → String → Cache α
  | [], _, _ => []
  | (k, e) :: rest, owner, repo =>
    if strStartsWith k (owner ++ "/" ++ repo ++ ":") then clearRepoCache rest owner repo
    else (k, e) :: clearRepoCache rest owner repo

theorem cacheFind_cacheSet_self {α : Type} (c : Cache α) (k : String) (e : CacheEntry α) :
    cacheFind (cacheSet c k e) k = some e := by
  induction c with
  | nil => simp [cacheSet, cacheFind]
  | cons p rest ih =>
    obtain ⟨k', e'⟩ := p
    by_cases h : k' = k
    · simp [cacheSet, cacheFind, h]
    · simp [cacheSet, cacheFind, h, ih]

theorem cacheFind_cacheSet_ne {α : Type} (c : Cache α) (k k' : String) (e : CacheEntry α)
    (h : k' ≠ k) : cacheFind (cacheSet c k e) k' = cacheFind c k' := by
  induction c with
  | nil => simp [cacheSet, cacheFind, Ne.symm h]
  | cons p rest ih =>
    obtain ⟨k'', e''⟩ := p
    by_cases hk : k'' = k
    · subst hk
      simp [cacheSet, cacheFind, Ne.symm h]
    · simp [cacheSet, cacheFind, hk, ih]

theorem cacheFind_cacheDelete_self {α : Type} (c : Cache α) (k : String) :
    cacheFind (cacheDelete c k) k = none := by
  induction c with
  | nil => simp [cacheDelete, cacheFind]
  | cons p rest ih =>
    obtain ⟨k', e'⟩ := p
    by_cases h : k' = k
    · simp [cacheDelete, h, ih]
    · simp [cacheDelete, cacheFind, h, ih]

theorem cacheFind_cacheDelete_ne {α : Type} (c : Cache α) (k k' : String)
    (h : k' ≠ k) : cacheFind (cacheDelete c k) k' = cacheFind c k' := by
  induction c with
  | nil => simp [cacheDelete]
  | cons p rest ih =>
    obtain ⟨k'', e''⟩ := p
    by_cases hk : k'' = k
    · subst hk
      simp [cacheDelete, cacheFind, Ne.symm h, ih]
    · simp [cacheDelete, cacheFind, hk, ih]

/-- C2: for every key, value and ttl, `setCacheItem` stores an entry expiring at
`now + ttl`, overwriting unconditionally; `getCachedItem` returns the stored value
when the entry is present and `now` is not past its expiry, returns a miss when the
key is absent, and on an expired entry returns a miss while deleting the entry, so
that a later `setCacheItem` under the same key stores a fresh entry. -/
theorem c2_cache_set_get_ttl :
    (∀ (α : Type) (c : Cache α) (now k : _) (v : α) (ttl : Nat),
        cacheFind (setCacheItem c now k v ttl) k = some ⟨v, now + ttl⟩) ∧
    (∀ (α : Type) (c : Cache α) (now : Nat) (k : String),
        cacheFind c k = none → getCachedItem c now k = (none, c)) ∧
    (∀ (α : Type) (c : Cache α) (now : Nat) (k : String) (e : CacheEntry α),
        cacheFind c k = some e → now ≤ e.expiry → getCachedItem c now k = (some e.data, c)) ∧
    (∀ (α : Type) (c : Cache α) (now : Nat) (k : String) (e : CacheEntry α),
        cacheFind c k = some e → e.expiry < now →
          (getCachedItem c now k).1 = none ∧ cacheFind (getCachedItem c now k).2 k = none) ∧
    (∀ (α : Type) (c : Cache α) (now k : _) (e : CacheEntry α) (now2 : Nat) (v : α) (ttl : Nat),
        cacheFind c k = some e → e.expiry < now →
          cacheFind (setCacheItem (getCachedItem c now k).2 now2 k v ttl) k =
            some ⟨v, now2 + ttl⟩) := by
  refine ⟨?_, ?_, ?_, ?_, ?_⟩
  · intro α c now k v ttl
    exact cacheFind_cacheSet_self c k ⟨v, now + ttl⟩
  · intro α c now k h
    simp [getCachedItem, h]
  · intro α c now k e h hle
    simp [getCachedItem, h, Nat.not_lt.mpr hle]
  · intro α c now k e h hlt
    simp [getCachedItem, h, hlt, cacheFind_cacheDelete_self]
  · intro α c now k e now2 v ttl h hlt
    exact cacheFind_cacheSet_self _ k ⟨v, now2 + ttl⟩

/-- C2 witness: the properties of `c2_cache_set_get_ttl` hold at a concrete
cache state, key and clock values. -/
theorem c2_cache_set_get_ttl_witness :
    cacheFind (setCacheItem ([] : Cache Nat) 5 "a/b:labels" 7 10) "a/b:labels" = some ⟨7, 15⟩ ∧
    getCachedItem ([("a/b:labels", ⟨7, 15⟩)] : Cache Nat) 12 "a/b:labels" =
      (some 7, [("a/b:labels", ⟨7, 15⟩)]) ∧
    (getCachedItem ([("a/b:labels", ⟨7, 15⟩)] : Cache Nat) 20 "a/b:labels").1 = none := by
  refine ⟨c2_cache_set_get_ttl.1 Nat [] 5 "a/b:labels" 7 10, ?_, ?_⟩
  · exact c2_cache_set_get_ttl.2.2.1 Nat _ 12 "a/b:labels" ⟨7, 15⟩ (by decide) (by decide)
  · exact (c2_cache_set_get_ttl.2.2.2.1 Nat _ 20 "a/b:labels" ⟨7, 15⟩ (by decide) (by decide)).1

theorem cacheFind_clearRepoCache {α : Type} (c : Cache α) (owner repo k : String) :
    cacheFind (clearRepoCache c owner repo) k =
      if strStartsWith k (owner ++ "/" ++ repo ++ ":") then none else cacheFind c k := by
  induction c with
  | nil => simp [clearRepoCache, cacheFind]
  | cons p rest ih =>
    obtain ⟨k', e'⟩ := p
    by_cases hs : strStartsWith k' (owner ++ "/" ++ repo ++ ":") = true
    · by_cases hk : k' = k
      · subst hk
        simp [clearRepoCache, hs, ih]
      · simp [clearRepoCache, cacheFind, hs, hk, ih]
    · by_cases hk : k' = k
      · subst hk
        simp [clearRepoCache, cacheFind, hs, ih]
      · simp [clearRepoCache, cacheFind, hs, hk, ih]

/-- C5: `clearRepoCache` removes exactly the entries whose key starts with
`owner/repo:` and leaves every other entry's lookup unchanged; in particular with
a key under `owner1/repo1:` and one under `owner2/repo2:` stored, clearing
`owner1/repo1` removes the former and the latter remains. -/
theorem c5_clear_repo_cache_scoped :
    (∀ (α : Type) (c : Cache α) (owner repo k : String),
        cacheFind (clearRepoCache c owner repo) k =
          if strStartsWith k (owner ++ "/" ++ repo ++ ":") then none else cacheFind c k) ∧
    clearRepoCache
        ([("owner1/repo1:prs:all:", ⟨1, 50⟩), ("owner2/repo2:labels", ⟨2, 60⟩)] : Cache Nat)
        "owner1" "repo1" = [("owner2/repo2:labels", ⟨2, 60⟩)] ∧
    cacheFind
        (clearRepoCache
          ([("owner1/repo1:prs:all:", ⟨1, 50⟩), ("owner2/repo2:labels", ⟨2, 60⟩)] : Cache Nat)
          "owner1" "repo1") "owner1/repo1:prs:all:" = none ∧
    cacheFind
        (clearRepoCache
          ([("owner1/repo1:prs:all:", ⟨1, 50⟩), ("owner2/repo2:labels", ⟨2, 60⟩)] : Cache Nat)
          "owner1" "repo1") "owner2/repo2:labels" = some ⟨2, 60⟩ := by
  refine ⟨fun α c owner repo k => cacheFind_clearRepoCache c owner repo k, by decide, by decide,
    by decide⟩

/-- `determineReleasePhase(release)` from the repository context provider:
`release.draft` yields development, else `release.prerelease` yields staging,
else production. -/
def determineReleasePhase (draft prerelease : Bool) : String :=
  if draft then "development"
  else if prerelease then "staging"
  else "production"

/-- The flag update built by `updateReleasePhase(releaseId, newPhase)`:
`{ draft: newPhase === 'development', prerelease: newPhase === 'staging' }`. -/
def updateReleasePhaseFlags (newPhase : String) : Bool × Bool :=
  (newPhase = "development", newPhase = "staging")

/-- C7: phase derivation is a total function of the two flags with exactly one
phase per flag combination (draft wins over prerelease), and deriving the phase
from the flags written by the phase update returns the phase that was set. -/
theorem c7_release_phase_mapping :
    determineReleasePhase true true = "development" ∧
    determineReleasePhase true false = "development" ∧
    determineReleasePhase false true = "staging" ∧
    determineReleasePhase false false = "production" ∧
    (∀ draft prerelease : Bool,
      determineReleasePhase draft prerelease = "development" ∨
      determineReleasePhase draft prerelease = "staging" ∨
      determineReleasePhase draft prerelease = "production") ∧
    determineReleasePhase (updateReleasePhaseFlags "development").1
        (updateReleasePhaseFlags "development").2 = "development" ∧
    determineReleasePhase (updateReleasePhaseFlags "staging").1
        (updateReleasePhaseFlags "staging").2 = "staging" ∧
    determineReleasePhase (updateReleasePhaseFlags "production").1
        (updateReleasePhaseFlags "production").2 = "production" := by
  refine ⟨rfl, rfl, rfl, rfl, ?_, by decide, by decide, by decide⟩
  intro draft prerelease
  cases draft <;> cases prerelease <;> simp [determineReleasePhase]

/-- The aggregate snapshot fields that the background full-PR fetch touches:
the currently selected repository identity and the pull-request list
(`owner`, `repo`, `pullRequests` state in the repository context provider). -/
structure RepoSnapshot where
  owner : String
  repo : String
  pullRequests : List Nat
  deriving DecidableEq, Repr

/-- Arrival of the background full-PR fetch in the repository context provider:
on `fullPullRequestsResult.success` it calls `setPullRequests(result)` with the
list fetched for `(fetchOwner, fetchRepo)` — the owner/repo captured when the
fetch started — without comparing them to the snapshot's current selection. -/
def backgroundFetchArrival (current : RepoSnapshot) (fetchOwner fetchRepo : String)
    (fetchSuccess : Bool) (fetchedPRs : List Nat) : RepoSnapshot :=
  if fetchSuccess then { current with pullRequests := fetchedPRs } else current

/-- C4 (code bug): a background result fetched for repository a/r1 arrives while
b/r2 is the selected repository, and it overwrites b/r2's pull-request list —
the code performs no check of the result against the current selection. -/
theorem c4_stale_background_result_overwrites :
    backgroundFetchArrival ⟨"b", "r2", [10, 11]⟩ "a" "r1" true [1, 2, 3] =
      ⟨"b", "r2", [1, 2, 3]⟩ ∧
    ("a" : String) ≠ "b" ∧ ("r1" : String) ≠ "r2" := by
  refine ⟨rfl, by decide, by decide⟩

/-- The uncapped pagination loop shared by `getReleases`, `getLabels` and
`getMilestones`: fetch pages of 100 from `remaining`, stop as soon as a page
comes back with fewer than 100 items, return the accumulated items and the number
of page fetches.  The loop always terminates because every continued iteration
consumed a full page; `fuel` is any bound on the iteration count. -/
def uncappedFetchLoop {α : Type} : Nat → List α → List α × Nat
  | 0, _ => ([], 0)
  | fuel + 1, remaining =>
    let pg := remaining.take 100
    if pg.length < 100 then (pg, 1)
    else
      let r := uncappedFetchLoop fuel (remaining.drop 100)
      (pg ++ r.1, r.2 + 1)

/-- The pagination portion of `getReleases(owner, repo)`: all pages of the
source, 100 per page, until a short page. -/
def getReleasesPagination {α : Type} (source : List α) : List α × Nat :=
  uncappedFetchLoop (source.length + 1) source

/-- The capped pagination loop of `getPullRequests` (githubService.js lines
152-189): the while loop runs while the accumulated count is below `maxPRs`, and
after each page stops when the page was short, the accumulated count reached
`maxPRs`, or this was page 1 with `skipReviewData` set. -/
def prFetchLoop {α : Type} :
    Nat → List α → Nat → Nat → Nat → Bool → List α × Nat
  | 0, _, _, _, _, _ => ([], 0)
  | fuel + 1, remaining, accLen, page, maxPRs, skipReviewData =>
    let pg := remaining.take 100
    if pg.length < 100 ∨ maxPRs ≤ accLen + pg.length ∨ (page = 1 ∧ skipReviewData = true) then
      (pg, 1)
    else
      let r := prFetchLoop fuel (remaining.drop 100) (accLen + pg.length) (page + 1)
        maxPRs skipReviewData
      (pg ++ r.1, r.2 + 1)

/-- The pagination-and-slice portion of `getPullRequests`: run the capped loop
starting from an empty accumulator and page 1 (the outer while guard makes no
fetch at all when `maxPRs = 0`), then slice the result to at most `maxPRs`
items.  Returns the items together with the number of page fetches. -/
def getPullRequestsPagination {α : Type} (source : List α) (maxPRs : Nat)
    (skipReviewData : Bool) : List α × Nat :=
  if 0 < maxPRs then
    let r := prFetchLoop (source.length + 1) source 0 1 maxPRs skipReviewData
    (r.1.take maxPRs, r.2)
  else ([], 0)

/-- The capped pagination loop of `getIssues` (githubService.js lines 580-617):
identical to the pull-request loop except that it has no `skipReviewData`
short-circuit. -/
def issuesFetchLoop {α : Type} : Nat → List α → Nat → Nat → List α × Nat
  | 0, _, _, _ => ([], 0)
  | fuel + 1, remaining, accLen, maxIssues =>
    let pg := remaining.take 100
    if pg.length < 100 ∨ maxIssues ≤ accLen + pg.length then (pg, 1)
    else
      let r := issuesFetchLoop fuel (remaining.drop 100) (accLen + pg.length) maxIssues
      (pg ++ r.1, r.2 + 1)

/-- The pagination-and-slice portion of `getIssues`. -/
def getIssuesPagination {α : Type} (source : List α) (maxIssues : Nat) : List α × Nat :=
  if 0 < maxIssues then
    let r := issuesFetchLoop (source.length + 1) source 0 maxIssues
    (r.1.take maxIssues, r.2)
  else ([], 0)

theorem uncappedFetchLoop_spec {α : Type} (fuel : Nat) :
    ∀ remaining : List α, remaining.length / 100 + 1 ≤ fuel →
      uncappedFetchLoop fuel remaining = (remaining, remaining.length / 100 + 1) := by
  induction fuel with
  | zero => intro r h; omega
  | succ fuel ih =>
    intro r h
    by_cases hlt : (r.take 100).length < 100
    · have hlen : r.length < 100 := by
        simp only [List.length_take] at hlt
        omega
      simp only [uncappedFetchLoop, if_pos hlt]
      have h1 : r.length / 100 + 1 = 1 := by omega
      rw [List.take_of_length_le (Nat.le_of_lt (by omega)), h1]
    · have hlen : 100 ≤ r.length := by
        simp only [List.length_take] at hlt
        omega
      have hr := ih (r.drop 100) (by simp only [List.length_drop]; omega)
      simp only [uncappedFetchLoop, if_neg hlt, hr]
      have h2 : (List.drop 100 r).length / 100 + 1 + 1 = r.length / 100 + 1 := by
        simp only [List.length_drop]
        omega
      rw [List.take_append_drop, h2]

theorem prFetchLoop_spec {α : Type} (fuel : Nat) :
    ∀ (remaining : List α) (accLen page maxPRs : Nat), accLen < maxPRs →
      remaining.length / 100 + 1 ≤ fuel →
      prFetchLoop fuel remaining accLen page maxPRs false =
        (remaining.take (100 * min (remaining.length / 100 + 1) ((maxPRs - accLen + 99) / 100)),
          min (remaining.length / 100 + 1) ((maxPRs - accLen + 99) / 100)) := by
  induction fuel with
  | zero => intro r a p m ha h; omega
  | succ fuel ih =>
    intro r a p m ha h
    by_cases hlt : (r.take 100).length < 100
    · have hlen : r.length < 100 := by
        simp only [List.length_take] at hlt
        omega
      have hcond : (r.take 100).length < 100 ∨ m ≤ a + (r.take 100).length ∨
          (p = 1 ∧ false = true) := Or.inl hlt
      have hmin : min (r.length / 100 + 1) ((m - a + 99) / 100) = 1 := by omega
      simp only [prFetchLoop, if_pos hcond, hmin, Nat.mul_one]
    · have hlen : 100 ≤ r.length := by
        simp only [List.length_take] at hlt
        omega
      have hpg : (r.take 100).length = 100 := by
        simp only [List.length_take]
        omega
      by_cases hcap : m ≤ a + 100
      · have hcond : (r.take 100).length < 100 ∨ m ≤ a + (r.take 100).length ∨
            (p = 1 ∧ false = true) := Or.inr (Or.inl (by omega))
        have hmin : min (r.length / 100 + 1) ((m - a + 99) / 100) = 1 := by omega
        simp only [prFetchLoop, if_pos hcond, hmin, Nat.mul_one]
      · have hcond : ¬((r.take 100).length < 100 ∨ m ≤ a + (r.take 100).length ∨
            (p = 1 ∧ false = true)) := by
          rintro (h1 | h2 | h3)
          · exact hlt h1
          · omega
          · exact Bool.false_ne_true h3.2
        have hrec := ih (r.drop 100) (a + 100) (p + 1) m (by omega)
          (by simp only [List.length_drop]; omega)
        simp only [prFetchLoop, if_neg hcond, hpg, hrec, List.length_drop]
        have hf : min (r.length / 100 + 1) ((m - a + 99) / 100) =
            min ((r.length - 100) / 100 + 1) ((m - (a + 100) + 99) / 100) + 1 := by
          omega
        rw [hf]
        generalize min ((r.length - 100) / 100 + 1) ((m - (a + 100) + 99) / 100) = x
        have hmul : (100 : Nat) * (x + 1) = 100 + 100 * x := by ring
        rw [hmul, List.take_add, if_neg]
        rintro (h1 | h2 | h3)
        · exact absurd h1 (by omega)
        · exact hcap h2
        · exact Bool.false_ne_true h3.2

theorem issuesFetchLoop_eq_prFetchLoop {α : Type} (fuel : Nat) :
    ∀ (remaining : List α) (accLen page maxIssues : Nat),
      issuesFetchLoop fuel remaining accLen maxIssues =
        prFetchLoop fuel remaining accLen page maxIssues false := by
  induction fuel with
  | zero => intro r a p m; rfl
  | succ fuel ih =>
    intro r a p m
    by_cases hcond : (r.take 100).length < 100 ∨ m ≤ a + (r.take 100).length
    · have hcond' : (r.take 100).length < 100 ∨ m ≤ a + (r.take 100).length ∨
          (p = 1 ∧ false = true) := by
        rcases hcond with h | h
        · exact Or.inl h
        · exact Or.inr (Or.inl h)
      simp only [issuesFetchLoop, prFetchLoop, if_pos hcond, if_pos hcond']
    · have hcond' : ¬((r.take 100).length < 100 ∨ m ≤ a + (r.take 100).length ∨
          (p = 1 ∧ false = true)) := by
        push_neg at hcond ⊢
        exact ⟨hcond.1, hcond.2, by simp⟩
      simp only [issuesFetchLoop, prFetchLoop, if_neg hcond, if_neg hcond', ih _ _ (p + 1)]

theorem getPullRequestsPagination_spec {α : Type} (source : List α) (maxPRs : Nat)
    (h : 0 < maxPRs) :
    getPullRequestsPagination source maxPRs false =
      (source.take maxPRs, min (source.length / 100 + 1) ((maxPRs + 99) / 100)) := by
  have hloop := prFetchLoop_spec (source.length + 1) source 0 1 maxPRs h (by omega)
  simp only [Nat.sub_zero] at hloop
  simp only [getPullRequestsPagination, if_pos h, hloop]
  refine Prod.ext ?_ rfl
  simp only [List.take_take]
  rcases Nat.le_total maxPRs
    (100 * min (source.length / 100 + 1) ((maxPRs + 99) / 100)) with hc | hc
  · rw [Nat.min_eq_left hc]
  · have hkey : source.length < 100 * min (source.length / 100 + 1) ((maxPRs + 99) / 100) ∨
        maxPRs = 100 * min (source.length / 100 + 1) ((maxPRs + 99) / 100) := by
      omega
    rcases hkey with hkey | hkey
    · rw [Nat.min_eq_right hc, List.take_of_length_le (Nat.le_of_lt hkey),
        List.take_of_length_le (by omega)]
    · rw [Nat.min_eq_right hc, ← hkey]

theorem getPullRequestsPagination_skip_spec {α : Type} (source : List α) (maxPRs : Nat)
    (h : 0 < maxPRs) :
    getPullRequestsPagination source maxPRs true = ((source.take 100).take maxPRs, 1) := by
  simp only [getPullRequestsPagination, if_pos h, prFetchLoop]
  rw [if_pos (Or.inr (Or.inr ⟨trivial, trivial⟩))]

/-- C3 counterexample: the claimed rule "continue fetching exactly while the
last page was full and the accumulated count is below the cap" fails on the
pull-request loop's `skipReviewData` fast path (githubService.js line 178):
over a 250-item source capped at 120 with `skipReviewData` set, the first page
comes back full (100 items) and the accumulated count 100 is below the cap 120,
yet pagination stops after that single fetch and returns 100 items — not the
2 fetches and 120 items the claim asserts for this source and cap; without
`skipReviewData` the same fetch does take 2 fetches and return 120 items. -/
theorem c3_skip_first_page_counterexample :
    getPullRequestsPagination (List.range 250) 120 true = ((List.range 250).take 100, 1) ∧
    ((List.range 250).take 100).length = 100 ∧
    (100 : Nat) < 120 ∧
    getPullRequestsPagination (List.range 250) 120 false = ((List.range 250).take 120, 2) := by
  refine ⟨?_, by simp, by decide, ?_⟩
  · rw [getPullRequestsPagination_skip_spec (List.range 250) 120 (by omega)]
    simp [List.take_take]
  · rw [getPullRequestsPagination_spec (List.range 250) 120 (by omega)]
    simp

/-- C3 (amended): every paginated list operation uses pages of 100, keeps
fetching exactly while the last page was full and the accumulated count is
below the cap — except that the pull-request fetch with `skipReviewData` set
always stops after page 1 (one fetch, at most 100 items retrieved) — and a
short page always terminates: an uncapped fetch returns the whole source in
`length / 100 + 1` page fetches, a capped fetch without `skipReviewData`
returns exactly the first `cap` items in
`min (length / 100 + 1) ((cap + 99) / 100)` page fetches; in particular 250
items uncapped take 3 fetches and return 250 items, and a fetch of the same
source capped at 120 without `skipReviewData` takes 2 fetches and returns
exactly 120 items. -/
theorem c3_pagination_policy :
    (∀ (α : Type) (source : List α),
        getReleasesPagination source = (source, source.length / 100 + 1)) ∧
    (∀ (α : Type) (source : List α) (maxPRs : Nat), 0 < maxPRs →
        getPullRequestsPagination source maxPRs false =
          (source.take maxPRs, min (source.length / 100 + 1) ((maxPRs + 99) / 100))) ∧
    (∀ (α : Type) (source : List α) (maxIssues : Nat), 0 < maxIssues →
        getIssuesPagination source maxIssues =
          (source.take maxIssues, min (source.length / 100 + 1) ((maxIssues + 99) / 100))) ∧
    (∀ (α : Type) (source : List α) (maxPRs : Nat), 0 < maxPRs →
        getPullRequestsPagination source maxPRs true = ((source.take 100).take maxPRs, 1)) ∧
    getReleasesPagination (List.range 250) = (List.range 250, 3) ∧
    getPullRequestsPagination (List.range 250) 120 false = ((List.range 250).take 120, 2) ∧
    ((getPullRequestsPagination (List.range 250) 120 false).1.length = 120 ∧
      (getReleasesPagination (List.range 250)).1.length = 250) := by
  have huncap : ∀ (α : Type) (source : List α),
      getReleasesPagination source = (source, source.length / 100 + 1) := by
    intro α source
    exact uncappedFetchLoop_spec (source.length + 1) source (by omega)
  have hpr : ∀ (α : Type) (source : List α) (maxPRs : Nat), 0 < maxPRs →
      getPullRequestsPagination source maxPRs false =
        (source.take maxPRs, min (source.length / 100 + 1) ((maxPRs + 99) / 100)) :=
    fun α source maxPRs h => getPullRequestsPagination_spec source maxPRs h
  have hissues : ∀ (α : Type) (source : List α) (maxIssues : Nat), 0 < maxIssues →
      getIssuesPagination source maxIssues =
        (source.take maxIssues, min (source.length / 100 + 1) ((maxIssues + 99) / 100)) := by
    intro α source maxIssues h
    have heq : getIssuesPagination source maxIssues =
        getPullRequestsPagination source maxIssues false := by
      simp only [getIssuesPagination, getPullRequestsPagination, if_pos h,
        issuesFetchLoop_eq_prFetchLoop (source.length + 1) source 0 1 maxIssues]
    rw [heq]
    exact hpr α source maxIssues h
  have hskip : ∀ (α : Type) (source : List α) (maxPRs : Nat), 0 < maxPRs →
      getPullRequestsPagination source maxPRs true = ((source.take 100).take maxPRs, 1) :=
    fun α source maxPRs h => getPullRequestsPagination_skip_spec source maxPRs h
  have h250 : getReleasesPagination (List.range 250) = (List.range 250, 3) := by
    rw [huncap Nat (List.range 250)]
    simp
  have h120 : getPullRequestsPagination (List.range 250) 120 false =
      ((List.range 250).take 120, 2) := by
    rw [hpr Nat (List.range 250) 120 (by omega)]
    simp
  refine ⟨huncap, hpr, hissues, hskip, h250, h120, ?_, ?_⟩
  · rw [h120]
    simp
  · rw [h250]
    simp

/-- A pull-request review as consumed by the review-status derivation:
`review.user.login`, `review.state` and `review.submitted_at` (as a comparable
timestamp). -/
structure Review where
  reviewer : String
  state : String
  submittedAt : Nat
  deriving DecidableEq, Repr

/-- The pull-request fields consumed by the review-status derivation:
`pr.draft`, `pr.merged` and `pr.state`. -/
structure PullRequest where
  draft : Bool
  merged : Bool
  state : String
  deriving DecidableEq, Repr

/-- One step of building `reviewerLatestReviews`: keep the existing review for
the reviewer unless the new one has a strictly later `submitted_at`
(`new Date(review.submitted_at) > new Date(existingReview.submitted_at)`). -/
def insertLatestReview (acc : List (String × Review)) (r : Review) : List (String × Review) :=
  match acc with
  | [] => [(r.reviewer, r)]
  | (k, v) :: rest =>
    if k = r.reviewer then
      if v.submittedAt < r.submittedAt then (k, r) :: rest else (k, v) :: rest
    else (k, v) :: insertLatestReview rest r

/-- `Object.values(reviewerLatestReviews)`: the latest review per distinct
reviewer, in first-appearance order. -/
def latestReviews (reviews : List Review) : List Review :=
  (reviews.foldl insertLatestReview []).map Prod.snd

/-- The review-status derivation of `getPullRequests` (githubService.js lines
217-315).  `reviews` is what `listReviews` would return for the PR and
`hasReviewRequests` whether `listRequestedReviewers` would report a non-empty
`users` list; the code fetches reviews only for open, non-draft, non-merged PRs,
fetches requested reviewers only for open PRs with no review, and then resolves
draft, merged, closed, latest-review-per-reviewer and the fallbacks in order. -/
def deriveReviewStatus (pr : PullRequest) (reviews : List Review)
    (hasReviewRequests : Bool) : String :=
  let fetchReviews : Bool :=
    !pr.draft && !pr.merged && !(decide (pr.state = "closed") && !pr.merged)
  let allReviews : List Review := if fetchReviews then reviews else []
  let reviewStatus0 : String :=
    if pr.draft then "DRAFT"
    else if fetchReviews && !(decide (pr.state = "closed")) && allReviews.isEmpty &&
        hasReviewRequests then "REVIEW_REQUIRED"
    else "NO_REVIEW"
  if pr.draft then "DRAFT"
  else if pr.merged then "APPROVED"
  else if pr.state = "closed" then "CHANGES_REQUESTED"
  else if !allReviews.isEmpty then
    let latest := latestReviews allReviews
    if latest.any (fun r => r.state = "CHANGES_REQUESTED") then "CHANGES_REQUESTED"
    else if latest.any (fun r => r.state = "APPROVED") then "APPROVED"
    else "COMMENTED"
  else reviewStatus0

/-- The review-status rule as the specification words it: draft, else merged,
else closed-without-merge, else latest-review-per-reviewer with changes
requested before approval before comments, else review requests on an open PR,
else no review.  Stated separately so it can be compared with the derivation
embedded from the source. -/
def specReviewStatus (pr : PullRequest) (reviews : List Review)
    (hasReviewRequests : Bool) : String :=
  if pr.draft then "DRAFT"
  else if pr.merged then "APPROVED"
  else if pr.state = "closed" then "CHANGES_REQUESTED"
  else if !reviews.isEmpty then
    let latest := latestReviews reviews
    if latest.any (fun r => r.state = "CHANGES_REQUESTED") then "CHANGES_REQUESTED"
    else if latest.any (fun r => r.state = "APPROVED") then "APPROVED"
    else "COMMENTED"
  else if hasReviewRequests && pr.state = "open" then "REVIEW_REQUIRED"
  else "NO_REVIEW"

theorem deriveReviewStatus_eq_spec (draft merged : Bool) (state : String)
    (reviews : List Review) (req : Bool) (hstate : state = "open" ∨ state = "closed") :
    deriveReviewStatus ⟨draft, merged, state⟩ reviews req =
      specReviewStatus ⟨draft, merged, state⟩ reviews req := by
  rcases hstate with h | h <;> subst h <;>
    cases draft <;> cases merged <;> cases req <;> cases reviews <;>
      simp +decide [deriveReviewStatus, specReviewStatus]

/-- C1: with review data available, the derived review status follows exactly
the priority draft, merged, closed-without-merge, latest-review-per-reviewer
(changes requested over approval over comments), active review requests on an
open PR, no review — it agrees everywhere with the rule as the specification
states it; in particular, for an open non-draft non-merged PR, an older approval
superseded by the same reviewer's newer changes-requested review yields
CHANGES_REQUESTED, and one reviewer's approval alongside a different reviewer's
comment-only review yields APPROVED. -/
theorem c1_review_status_derivation :
    (∀ (draft merged : Bool) (state : String) (reviews : List Review) (req : Bool),
        state = "open" ∨ state = "closed" →
        deriveReviewStatus ⟨draft, merged, state⟩ reviews req =
          specReviewStatus ⟨draft, merged, state⟩ reviews req) ∧
    deriveReviewStatus ⟨false, false, "open"⟩
        [⟨"alice", "APPROVED", 1⟩, ⟨"alice", "CHANGES_REQUESTED", 2⟩] false =
      "CHANGES_REQUESTED" ∧
    deriveReviewStatus ⟨false, false, "open"⟩
        [⟨"alice", "APPROVED", 1⟩, ⟨"bob", "COMMENTED", 2⟩] false = "APPROVED" := by
  refine ⟨deriveReviewStatus_eq_spec, by decide, by decide⟩

/-- The uniform result envelope of every client operation:
`{ success: true, payload }` or `{ success: false, error }`. -/
inductive Envelope (α : Type) where
  | success : α → Envelope α
  | failure : String → Envelope α
  deriving DecidableEq, Repr

/-- The outermost try/catch every client operation runs under: a body that
completes yields a success envelope, a body that raises yields a failure
envelope carrying the error message. -/
def clientOp {α : Type} (body : Except String α) : Envelope α :=
  match body with
  | Except.ok v => Envelope.success v
  | Except.error e => Envelope.failure e

/-- The synthetic review status used when a PR's review sub-fetch fails
(githubService.js lines 324-341) and by the `skipReviewData` fast path:
draft, else merged, else closed, else NO_REVIEW — no network data needed. -/
def syntheticReviewStatus (pr : PullRequest) : String :=
  if pr.draft then "DRAFT"
  else if pr.merged then "APPROVED"
  else if pr.state = "closed" then "CHANGES_REQUESTED"
  else "NO_REVIEW"

/-- A pull request decorated with its derived review status
(`{ ...pr, reviewStatus }`). -/
structure ProcessedPR where
  pr : PullRequest
  reviewStatus : String
  deriving DecidableEq, Repr

/-- Per-PR batch processing with its own try/catch: the review sub-fetch either
yields review data (the reviews and whether review requests are active) or
raises; on failure only this PR falls back to the synthetic status. -/
def processPR (pr : PullRequest) (fetch : Except String (List Review × Bool)) : ProcessedPR :=
  match fetch with
  | Except.ok (reviews, req) => ⟨pr, deriveReviewStatus pr reviews req⟩
  | Except.error _ => ⟨pr, syntheticReviewStatus pr⟩

/-- `getPullRequests` at its public boundary: the page listing either raises
(caught by the outer catch, yielding the failure envelope) or yields the PRs,
each paired with the outcome of its review sub-fetch; every per-PR outcome is
absorbed by the per-PR catch, so the collection itself is returned successfully. -/
def getPullRequestsEnvelope
    (pages : Except String (List (PullRequest × Except String (List Review × Bool)))) :
    Envelope (List ProcessedPR) :=
  match pages with
  | Except.error e => Envelope.failure e
  | Except.ok prs => Envelope.success (prs.map fun x => processPR x.1 x.2)

/-- C6: every client operation returns a success-or-failure envelope rather than
raising across its boundary, and a failing review sub-fetch degrades only that
PR to the synthetic status (draft DRAFT, merged APPROVED, closed
CHANGES_REQUESTED, else NO_REVIEW) while the whole collection still returns
successfully, the other PRs keeping their full derived status. -/
theorem c6_error_envelope_and_partial_degradation :
    (∀ (α : Type) (body : Except String α),
        (∃ v, clientOp body = Envelope.success v) ∨
        (∃ e, clientOp body = Envelope.failure e)) ∧
    (∀ pages, (∃ v, getPullRequestsEnvelope pages = Envelope.success v) ∨
        (∃ e, getPullRequestsEnvelope pages = Envelope.failure e)) ∧
    (∀ prs, getPullRequestsEnvelope (Except.ok prs) =
        Envelope.success (prs.map fun x => processPR x.1 x.2)) ∧
    (∀ pr e, processPR pr (Except.error e) = ⟨pr, syntheticReviewStatus pr⟩) ∧
    (∀ pr reviews req, processPR pr (Except.ok (reviews, req)) =
        ⟨pr, deriveReviewStatus pr reviews req⟩) ∧
    getPullRequestsEnvelope (Except.ok
        [(⟨false, false, "open"⟩, Except.ok ([⟨"alice", "APPROVED", 3⟩], false)),
          (⟨false, false, "open"⟩, Except.error "boom")]) =
      Envelope.success
        [⟨⟨false, false, "open"⟩, "APPROVED"⟩, ⟨⟨false, false, "open"⟩, "NO_REVIEW"⟩] := by
  refine ⟨?_, ?_, fun prs => rfl, fun pr e => rfl, fun pr reviews req => rfl, by decide⟩
  · intro α body
    cases body with
    | ok v => exact Or.inl ⟨v, rfl⟩
    | error e => exact Or.inr ⟨e, rfl⟩
  · intro pages
    cases pages with
    | ok prs => exact Or.inl ⟨_, rfl⟩
    | error e => exact Or.inr ⟨e, rfl⟩

/-- JS `String.prototype.includes` on character lists: `sub` occurs contiguously
in `l`. -/
def charsContains (l sub : List Char) : Bool :=
  match l with
  | [] => sub.isEmpty
  | _ :: rest => List.isPrefixOf sub l || charsContains rest sub

/-- `label.name.toLowerCase().includes(keyword)` — the keywords of the source
are already lower-case. -/
def labelNameIncludes (name keyword : String) : Bool :=
  charsContains (name.data.map Char.toLower) keyword.data

/-- The issue-type classification of `getIssues` (githubService.js lines
626-670): `issueType` starts as `other`; when the issue-type vocabulary is
available (`typesSuccess && issueTypes.length > 0`) the label names are matched
case-insensitively against the keyword sets in priority order bug/fix/error,
feature/enhancement/improvement, doc, question/help. -/
def classifyIssue (labelNames : List String) (typesAvailable : Bool) : String :=
  if typesAvailable then
    if labelNames.any fun n =>
        labelNameIncludes n "bug" || labelNameIncludes n "fix" ||
          labelNameIncludes n "error" then "bug"
    else if labelNames.any fun n =>
        labelNameIncludes n "feature" || labelNameIncludes n "enhancement" ||
          labelNameIncludes n "improvement" then "enhancement"
    else if labelNames.any fun n => labelNameIncludes n "doc" then "documentation"
    else if labelNames.any fun n =>
        labelNameIncludes n "question" || labelNameIncludes n "help" then "question"
    else "other"
  else "other"

/-- C9: with the type vocabulary available, classification is case-insensitive
substring matching in priority order bug/fix/error, feature/enhancement/
improvement, doc, question/help, defaulting to other; the result is always one
of the five types; labels ["kind/bug", "priority/p1"] classify as bug and
["good-first-issue"] as other. -/
theorem c9_issue_type_classification :
    (∀ (labelNames : List String) (typesAvailable : Bool),
        classifyIssue labelNames typesAvailable = "bug" ∨
        classifyIssue labelNames typesAvailable = "enhancement" ∨
        classifyIssue labelNames typesAvailable = "documentation" ∨
        classifyIssue labelNames typesAvailable = "question" ∨
        classifyIssue labelNames typesAvailable = "other") ∧
    (∀ labelNames : List String,
        (labelNames.any fun n => labelNameIncludes n "bug" || labelNameIncludes n "fix" ||
            labelNameIncludes n "error") = true →
          classifyIssue labelNames true = "bug") ∧
    (∀ labelNames : List String,
        (labelNames.any fun n => labelNameIncludes n "bug" || labelNameIncludes n "fix" ||
            labelNameIncludes n "error") = false →
        (labelNames.any fun n => labelNameIncludes n "feature" ||
            labelNameIncludes n "enhancement" || labelNameIncludes n "improvement") = true →
          classifyIssue labelNames true = "enhancement") ∧
    (∀ labelNames : List String, classifyIssue labelNames false = "other") ∧
    classifyIssue ["kind/bug", "priority/p1"] true = "bug" ∧
    classifyIssue ["good-first-issue"] true = "other" := by
  refine ⟨?_, ⟨?_, ?_, fun labelNames => rfl, by decide, by decide⟩⟩
  · intro labelNames typesAvailable
    by_cases ht : typesAvailable = true
    · subst ht
      simp only [classifyIssue, if_true]
      split
      · exact Or.inl rfl
      · split
        · exact Or.inr (Or.inl rfl)
        · split
          · exact Or.inr (Or.inr (Or.inl rfl))
          · split
            · exact Or.inr (Or.inr (Or.inr (Or.inl rfl)))
            · exact Or.inr (Or.inr (Or.inr (Or.inr rfl)))
    · have ht' : typesAvailable = false := by
        cases typesAvailable
        · rfl
        · exact absurd rfl ht
      subst ht'
      exact Or.inr (Or.inr (Or.inr (Or.inr rfl)))
  · intro labelNames hbug
    simp only [classifyIssue, if_true, hbug, if_pos]
  · intro labelNames hbug hfeat
    simp only [classifyIssue, if_true, hbug, hfeat]
    simp

/-- The cache key `` `${owner}/${repo}:issues:all:` `` deleted by
`addLabelToIssue` and `removeLabelFromIssue`. -/
def issuesAllKey (owner repo : String) : String :=
  owner ++ "/" ++ repo ++ ":issues:all:"

/-- The cache key `` `${owner}/${repo}:labels` `` used by `getLabels`. -/
def labelsKey (owner repo : String) : String :=
  owner ++ "/" ++ repo ++ ":labels"

theorem labelsKey_ne_issuesAllKey (owner repo : String) :
    labelsKey owner repo ≠ issuesAllKey owner repo := by
  intro h
  have h2 := congrArg String.data h
  simp [labelsKey, issuesAllKey, String.data_append] at h2

/-- The cache effect of a successful `addLabelToIssue(owner, repo, ...)`: the
initial `getLabels` call reads the labels entry through `getCachedItem` and, on
a miss, fetches and stores a fresh labels entry with a 1-hour TTL; after the
label is attached, the single key `` `${owner}/${repo}:issues:all:` `` is
deleted from the cache.  No other key is touched. -/
def addLabelToIssueCacheEffect {α : Type} (c : Cache α) (now : Nat)
    (owner repo : String) (fetchedLabels : α) : Cache α :=
  let r := getCachedItem c now (labelsKey owner repo)
  let c2 := match r.1 with
    | some _ => r.2
    | none => setCacheItem r.2 now (labelsKey owner repo) fetchedLabels (60 * 60 * 1000)
  cacheDelete c2 (issuesAllKey owner repo)

/-- The cache effect of a successful `removeLabelFromIssue(owner, repo, ...)`:
only the key `` `${owner}/${repo}:issues:all:` `` is deleted. -/
def removeLabelFromIssueCacheEffect {α : Type} (c : Cache α) (owner repo : String) : Cache α :=
  cacheDelete c (issuesAllKey owner repo)

/-- C10: after a successful `addLabelToIssue` or `removeLabelFromIssue` the only
cache entry removed is the one under the exact key `owner/repo:issues:all:`;
every entry under any other key is looked up unchanged afterwards (and an
unexpired labels entry is served from cache, so it too is untouched), hence
pull-request lists, per-PR review statuses and issues lists under other
state/label discriminators can still be served until their own TTLs expire. -/
theorem c10_label_mutation_cache_effect :
    (∀ (α : Type) (c : Cache α) (now : Nat) (owner repo : String) (fetchedLabels : α),
        cacheFind (addLabelToIssueCacheEffect c now owner repo fetchedLabels)
          (issuesAllKey owner repo) = none) ∧
    (∀ (α : Type) (c : Cache α) (now : Nat) (owner repo k : String) (fetchedLabels : α),
        k ≠ issuesAllKey owner repo → k ≠ labelsKey owner repo →
          cacheFind (addLabelToIssueCacheEffect c now owner repo fetchedLabels) k =
            cacheFind c k) ∧
    (∀ (α : Type) (c : Cache α) (now : Nat) (owner repo : String) (fetchedLabels : α)
        (e : CacheEntry α),
        cacheFind c (labelsKey owner repo) = some e → now ≤ e.expiry →
          cacheFind (addLabelToIssueCacheEffect c now owner repo fetchedLabels)
            (labelsKey owner repo) = some e) ∧
    (∀ (α : Type) (c : Cache α) (owner repo : String),
        cacheFind (removeLabelFromIssueCacheEffect c owner repo)
          (issuesAllKey owner repo) = none) ∧
    (∀ (α : Type) (c : Cache α) (owner repo k : String),
        k ≠ issuesAllKey owner repo →
          cacheFind (removeLabelFromIssueCacheEffect c owner repo) k = cacheFind c k) ∧
    cacheFind
        (addLabelToIssueCacheEffect
          ([("o/r:issues:all:", ⟨1, 90⟩), ("o/r:prs:all:", ⟨2, 90⟩), ("o/r:labels", ⟨3, 90⟩),
            ("o/r:issues:open:", ⟨4, 90⟩)] : Cache Nat) 10 "o" "r" 9)
        "o/r:issues:all:" = none ∧
    cacheFind
        (addLabelToIssueCacheEffect
          ([("o/r:issues:all:", ⟨1, 90⟩), ("o/r:prs:all:", ⟨2, 90⟩), ("o/r:labels", ⟨3, 90⟩),
            ("o/r:issues:open:", ⟨4, 90⟩)] : Cache Nat) 10 "o" "r" 9)
        "o/r:prs:all:" = some ⟨2, 90⟩ ∧
    cacheFind
        (addLabelToIssueCacheEffect
          ([("o/r:issues:all:", ⟨1, 90⟩), ("o/r:prs:all:", ⟨2, 90⟩), ("o/r:labels", ⟨3, 90⟩),
            ("o/r:issues:open:", ⟨4, 90⟩)] : Cache Nat) 10 "o" "r" 9)
        "o/r:issues:open:" = some ⟨4, 90⟩ := by
  have hget_ne : ∀ (α : Type) (c : Cache α) (now : Nat) (key k : String), k ≠ key →
      cacheFind (getCachedItem c now key).2 k = cacheFind c k := by
    intro α c now key k h
    unfold getCachedItem
    rcases hf : cacheFind c key with _ | e
    · simp only
    · by_cases hexp : e.expiry < now
      · simp only [if_pos hexp]
        exact cacheFind_cacheDelete_ne _ _ _ h
      · simp only [if_neg hexp]
  have hother : ∀ (α : Type) (c : Cache α) (now : Nat) (owner repo k : String)
      (fetchedLabels : α), k ≠ issuesAllKey owner repo → k ≠ labelsKey owner repo →
        cacheFind (addLabelToIssueCacheEffect c now owner repo fetchedLabels) k =
          cacheFind c k := by
    intro α c now owner repo k fetchedLabels hik hlk
    unfold addLabelToIssueCacheEffect
    rw [cacheFind_cacheDelete_ne _ _ _ hik]
    rcases hr : (getCachedItem c now (labelsKey owner repo)).1 with _ | v
    · simp only [hr]
      unfold setCacheItem
      rw [cacheFind_cacheSet_ne _ _ _ _ hlk]
      exact hget_ne α c now _ k hlk
    · simp only [hr]
      exact hget_ne α c now _ k hlk
  refine ⟨?_, hother, ?_, ?_, ?_, ?_, ?_, ?_⟩
  · intro α c now owner repo fetchedLabels
    exact cacheFind_cacheDelete_self _ _
  · intro α c now owner repo fetchedLabels e hf hfresh
    unfold addLabelToIssueCacheEffect
    rw [cacheFind_cacheDelete_ne _ _ _ (labelsKey_ne_issuesAllKey owner repo)]
    have hget : getCachedItem c now (labelsKey owner repo) = (some e.data, c) := by
      unfold getCachedItem
      simp only [hf, if_neg (Nat.not_lt.mpr hfresh)]
    simp only [hget]
    exact hf
  · intro α c owner repo
    exact cacheFind_cacheDelete_self _ _
  · intro α c owner repo k hik
    exact cacheFind_cacheDelete_ne _ _ _ hik
  · decide
  · decide
  · decide

/-- The cache key `` `${owner}/${repo}:prs:${state}:${labels}` `` of
`getPullRequests`: it does not mention `maxPRs`. -/
def prsKey (owner repo state labels : String) : String :=
  owner ++ "/" ++ repo ++ ":prs:" ++ state ++ ":" ++ labels

/-- `getPullRequests` with its cache interaction (githubService.js lines
136-204): with `useCache` (the default) a fresh cached list under the
limit-less key is returned as is, whatever its length; only on a miss does the
paginated fetch capped at `maxPRs` run, and its result is stored under the same
key (5-minute TTL on the `skipReviewData` fast path, the default TTL
otherwise).  Returns the pull-request list and the cache afterwards. -/
def getPullRequestsModel (c : Cache (List Nat)) (now defaultExpiry : Nat)
    (owner repo state labels : String) (useCache : Bool) (maxPRs : Nat)
    (skipReviewData : Bool) (source : List Nat) : List Nat × Cache (List Nat) :=
  let key := prsKey owner repo state labels
  let hit := if useCache then getCachedItem c now key else (none, c)
  match hit with
  | (some cached, c1) => (cached, c1)
  | (none, c1) =>
    let items := (getPullRequestsPagination source maxPRs skipReviewData).1
    (items,
      setCacheItem c1 now key items (if skipReviewData then 5 * 60 * 1000 else defaultExpiry))

/-- The pieces of provider state read and written by the item-limit effect in
the repository context provider: the configured limit, the limit used by the
last fetch, the load trigger, and whether a repository is currently loaded. -/
structure LimitState where
  itemLimit : Option Nat
  lastUsedItemLimit : Option Nat
  shouldLoadRepo : Bool
  repoLoaded : Bool
  deriving DecidableEq, Repr

/-- The item-limit effect of the repository context provider: when a repository
is loaded and `itemLimit !== lastUsedItemLimit`, it records the new limit in
`lastUsedItemLimit` and sets the `shouldLoadRepo` trigger; otherwise it does
nothing. -/
def itemLimitEffect (s : LimitState) : LimitState :=
  if s.repoLoaded ∧ s.itemLimit ≠ s.lastUsedItemLimit then
    { s with lastUsedItemLimit := s.itemLimit, shouldLoadRepo := true }
  else s

/-- C8 (code bug): changing the item limit from 200 to 50 while a repository is
loaded triggers exactly one refetch (the effect fires once and is then
quiescent), but that refetch, finding a fresh 200-item list cached under the
limit-less key, returns all 200 items instead of at most 50 — the new limit is
silently ignored while the cache entry is fresh. -/
theorem c8_cached_list_ignores_new_item_limit :
    itemLimitEffect ⟨some 50, some 200, false, true⟩ = ⟨some 50, some 50, true, true⟩ ∧
    itemLimitEffect (itemLimitEffect ⟨some 50, some 200, false, true⟩) =
      itemLimitEffect ⟨some 50, some 200, false, true⟩ ∧
    (getPullRequestsModel [("o/r:prs:all:", ⟨List.range 200, 1000⟩)] 500 1800000
        "o" "r" "all" "" true 50 true (List.range 300)).1 = List.range 200 ∧
    (getPullRequestsModel [("o/r:prs:all:", ⟨List.range 200, 1000⟩)] 500 1800000
        "o" "r" "all" "" true 50 true (List.range 300)).1.length = 200 ∧
    50 < 200 := by
  refine ⟨by decide, by decide, ?_, ?_, by decide⟩
  · have hkey : prsKey "o" "r" "all" "" = "o/r:prs:all:" := by decide
    simp [getPullRequestsModel, hkey, getCachedItem, cacheFind]
  · have hkey : prsKey "o" "r" "all" "" = "o/r:prs:all:" := by decide
    simp [getPullRequestsModel, hkey, getCachedItem, cacheFind]

end ReleaseDashboard
